import Mathlib

/-!
Verification of the euler_solver repository core: expression compilation
(`function_parser.py`), the numeric integrators (`numerical_methods.py`),
the exact-solution orchestrator (`solve_exact_ode`) and the simulation
coordinator (`simulation.py`).

Python floats are modelled as exact rationals (`ℚ`); the claims under
study are structural (control flow, error routing, recurrences), not
statements about rounding.  Python exceptions are modelled with `Except`.
The external SymPy capabilities (`sympify`, `lambdify`, `dsolve`) are
black boxes per the specification; they are modelled as oracle
parameters: `lambdify` as a function-valued argument, the `dsolve`
pipeline as a `SymSolveResult` oracle describing the outcome of the one
external call.
-/

/-- The float value a lambdified backend can hand back: `math`-module
results are real, but SymPy backends can also produce complex values,
which `float()` then rejects. -/
inductive PyVal
  | real (q : ℚ)
  | complex (re im : ℚ)

/-- The Python exception classes relevant to `safe_wrapper`'s
`try`/`except` ladder: `ZeroDivisionError` and `ValueError` are caught by
dedicated handlers; `OverflowError`, `TypeError` and anything else fall
through to the generic `except Exception` handler. -/
inductive PyExc
  | zeroDivisionError (msg : String)
  | valueError (msg : String)
  | overflowError (msg : String)
  | typeError (msg : String)
  | otherError (msg : String)

/-- Message of the exception, as Python `str(e)` renders it. -/
def PyExc.message : PyExc → String
  | .zeroDivisionError m => m
  | .valueError m => m
  | .overflowError m => m
  | .typeError m => m
  | .otherError m => m

/-- `float(v)`: identity on reals; raises `TypeError` on a complex value
(Python cannot convert `complex` to `float`). -/
def pyFloat : PyVal → Except PyExc ℚ
  | .real q => .ok q
  | .complex _ _ => .error (.typeError ("cannot convert complex to float"))

/-- `FunctionParserError` from `function_parser.py`.  The source raises it
with distinct f-string messages; each raise site is one constructor, the
interpolated data kept structured. -/
inductive FunctionParserError
  | unknownSymbol (sym : String)
  | evaluationDivByZero (val_x val_y : ℚ)
  | evaluationMathError (val_x val_y : ℚ) (msg : String)
  | evaluationUnexpected (msg : String)
  | invalidExpression (msg : String)
  | processingError (msg : String)

/-- The evaluation point `(vx, vy)` an error message interpolates, if any:
only the dedicated division-by-zero and math-domain handlers mention it.  -/
def FunctionParserError.carriesPoint : FunctionParserError → Option (ℚ × ℚ)
  | .evaluationDivByZero x y => some (x, y)
  | .evaluationMathError x y _ => some (x, y)
  | _ => none

/-- A SymPy expression tree over the vocabulary `parse_function` admits
through `allowed_locals`: the symbols `x`, `y` (plus whatever stray
symbols `sympify` created for unknown names), numeric literals, the
constants `pi`, `e`, arithmetic, and the whitelisted functions. -/
inductive SymExpr
  | var (name : String)
  | num (val : ℚ)
  | piConst
  | eConst
  | add (a b : SymExpr)
  | sub (a b : SymExpr)
  | mul (a b : SymExpr)
  | div (a b : SymExpr)
  | pow (a b : SymExpr)
  | neg (a : SymExpr)
  | sin (a : SymExpr)
  | cos (a : SymExpr)
  | tan (a : SymExpr)
  | exp (a : SymExpr)
  | log (a : SymExpr)
  | sqrt (a : SymExpr)

/-- `expr.free_symbols`: every symbol occurring in the tree (`pi` and `e`
are constants, not symbols). -/
def SymExpr.freeSymbols : SymExpr → List String
  | .var n => [n]
  | .num _ => []
  | .piConst => []
  | .eConst => []
  | .add a b => a.freeSymbols ++ b.freeSymbols
  | .sub a b => a.freeSymbols ++ b.freeSymbols
  | .mul a b => a.freeSymbols ++ b.freeSymbols
  | .div a b => a.freeSymbols ++ b.freeSymbols
  | .pow a b => a.freeSymbols ++ b.freeSymbols
  | .neg a => a.freeSymbols
  | .sin a => a.freeSymbols
  | .cos a => a.freeSymbols
  | .tan a => a.freeSymbols
  | .exp a => a.freeSymbols
  | .log a => a.freeSymbols
  | .sqrt a => a.freeSymbols

/-- The runtime wrapper built by `parse_function`
(`function_parser.py` lines 71-85): evaluate the lambdified function,
coerce to `float`, and translate exceptions.  `ZeroDivisionError` and
`ValueError` are re-raised with the offending point interpolated; every
other exception hits the generic handler whose message carries only
`str(e)`, not the point. -/
def safe_wrapper (f_lambda : ℚ → ℚ → Except PyExc PyVal)
    (val_x val_y : ℚ) : Except FunctionParserError ℚ :=
  match (f_lambda val_x val_y).bind pyFloat with
  | .ok v => .ok v
  | .error (.zeroDivisionError _) => .error (.evaluationDivByZero val_x val_y)
  | .error (.valueError m) => .error (.evaluationMathError val_x val_y m)
  | .error e =>
      .error (.evaluationUnexpected
        ("Error inesperado evaluando funcion: " ++ e.message))

/-- `parse_function` after `sympify` (an external SymPy call, so the
already-parsed tree is the input here): scan `expr.free_symbols` and
raise on the first symbol outside `{x, y}` (`function_parser.py` lines
60-65); otherwise lambdify — an external call, modelled by the `lambdify`
oracle argument — and return the `safe_wrapper` closure. -/
def parse_function (lambdify : SymExpr → ℚ → ℚ → Except PyExc PyVal)
    (expr : SymExpr) :
    Except FunctionParserError (ℚ → ℚ → Except FunctionParserError ℚ) :=
  match expr.freeSymbols.find? (fun s => !(s == "x" || s == "y")) with
  | some s => .error (.unknownSymbol s)
  | none => .ok (safe_wrapper (lambdify expr))

/-- Result of the one external `sympify`/`dsolve`/`lambdify` pipeline
inside `solve_exact_ode`'s `try` block: either a lambdified
right-hand side with its display string, or some exception, or the
3-second alarm fired (`TimeoutError`). -/
inductive SymSolveResult
  | ok (real_lambda : ℚ → Except PyExc PyVal) (rhsStr : String)
  | raises (e : PyExc)
  | timesOut

/-- `safe_real_y` (`function_parser.py` lines 141-145): evaluate the exact
solution at `val_x`, coerce with `float`, and on any exception return the
not-a-number sentinel instead of raising.  `float('nan')` is modelled as
a distinguished value. -/
inductive PyFloat
  | val (q : ℚ)
  | nan

/-- The closure `safe_real_y` built on the success path of
`solve_exact_ode`. -/
def safe_real_y (real_lambda : ℚ → Except PyExc PyVal) (val_x : ℚ) : PyFloat :=
  match (real_lambda val_x).bind pyFloat with
  | .ok v => .val v
  | .error _ => .nan

/-- `solve_exact_ode` (`function_parser.py` lines 96-159): run the
symbolic pipeline (external, oracle `r`); on success wrap the lambdified
right-hand side in `safe_real_y` and pair it with `str(rhs)`; the
`except TimeoutError` and `except Exception` handlers both return `None`.
The expression text and initial condition only feed the external
pipeline, so the outcome is a function of the oracle alone. -/
def solve_exact_ode (expression_str : String) (x0 y0 : ℚ)
    (r : SymSolveResult) : Option ((ℚ → PyFloat) × String) :=
  match r with
  | .ok real_lambda rhsStr => some (safe_real_y real_lambda, rhsStr)
  | .raises _ => none
  | .timesOut => none

/-- `ValueError` raised by the integrators' parameter validation
(`numerical_methods.py` lines 33-36 and 86-91), one constructor per
f-string, keeping the interpolated data. -/
inductive InvalidParameterError
  | stepNotPositive (h : ℚ)
  | endNotGreater (x_end x0 : ℚ)
  | correctorTooSmall (n : ℤ)

/-- Any exception escaping an integrator: the validation `ValueError`, or
a `FunctionParserError` raised by the evaluator `f` mid-step (which
aborts integration — no partial trajectory is returned). -/
inductive IntegrationExc
  | invalidParam (e : InvalidParameterError)
  | evalError (e : FunctionParserError)

/-- ε = 1e-9, the guard slack in both integration loops
(`while curr_x < x_end - 1e-9`). -/
def eps : ℚ := 1 / 1000000000

/-- The `while` loop of `euler_method` (`numerical_methods.py` lines
46-50).  `fuel` bounds the unbounded source loop; `euler_method` passes
enough fuel that the loop always stops because the guard fails, never
because fuel runs out (proved below: the last point fails the guard). -/
def eulerLoop (f : ℚ → ℚ → Except FunctionParserError ℚ) (h x_end : ℚ) :
    ℕ → ℚ → ℚ → Except FunctionParserError (List (ℚ × ℚ))
  | 0, _, _ => .ok []
  | fuel + 1, curr_x, curr_y =>
    if curr_x < x_end - eps then
      match f curr_x curr_y with
      | .error e => .error e
      | .ok slope =>
        match eulerLoop f h x_end fuel (curr_x + h) (curr_y + h * slope) with
        | .error e => .error e
        | .ok rest => .ok ((curr_x + h, curr_y + h * slope) :: rest)
    else .ok []

/-- `euler_method` (`numerical_methods.py` lines 9-52): validate `h` and
`x_end`, seed the trajectory with `(x0, y0)`, then run the loop. -/
def euler_method (f : ℚ → ℚ → Except FunctionParserError ℚ)
    (x0 y0 h x_end : ℚ) : Except IntegrationExc (List (ℚ × ℚ)) :=
  if h ≤ 0 then .error (.invalidParam (.stepNotPositive h))
  else if x_end ≤ x0 then .error (.invalidParam (.endNotGreater x_end x0))
  else
    match eulerLoop f h x_end (Nat.ceil ((x_end - x0) / h) + 1) x0 y0 with
    | .error e => .error (.evalError e)
    | .ok pts => .ok ((x0, y0) :: pts)

/-- The `for _ in range(corrector_iterations - 1)` refinement loop of
`improved_euler_method` (lines 123-126): each pass recomputes only
`k2` at the refined iterate, holding `k1_iter` and `curr_y_iter` fixed. -/
def correctorLoop (f : ℚ → ℚ → Except FunctionParserError ℚ)
    (h x_next curr_y_iter k1_iter : ℚ) :
    ℕ → ℚ → Except FunctionParserError ℚ
  | 0, y => .ok y
  | k + 1, y =>
    match f x_next y with
    | .error e => .error e
    | .ok k2_iter_new =>
      correctorLoop f h x_next curr_y_iter k1_iter k
        (curr_y_iter + (h / 2) * (k1_iter + k2_iter_new))

/-- One body of the `while` loop of `improved_euler_method` (lines
99-132): the single-correction track, the iterated track's first
correction, and (when `corrector_iterations > 1`) the refinement loop. -/
def heunStep (f : ℚ → ℚ → Except FunctionParserError ℚ) (h : ℚ) (n : ℤ)
    (curr_x y_single y_iter : ℚ) :
    Except FunctionParserError (ℚ × ℚ × ℚ) :=
  match f curr_x y_single with
  | .error e => .error e
  | .ok k1_single =>
    match f (curr_x + h) (y_single + h * k1_single) with
    | .error e => .error e
    | .ok k2_single =>
      match f curr_x y_iter with
      | .error e => .error e
      | .ok k1_iter =>
        match f (curr_x + h) (y_iter + h * k1_iter) with
        | .error e => .error e
        | .ok k2_iter =>
          match
            (if 1 < n then
              correctorLoop f h (curr_x + h) y_iter k1_iter ((n - 1).toNat)
                (y_iter + (h / 2) * (k1_iter + k2_iter))
            else .ok (y_iter + (h / 2) * (k1_iter + k2_iter))) with
          | .error e => .error e
          | .ok y_iterated =>
            .ok (curr_x + h, y_single + (h / 2) * (k1_single + k2_single),
                 y_iterated)

/-- The `while` loop of `improved_euler_method` (lines 98-132), with the
same fuel discipline as `eulerLoop`. -/
def heunLoop (f : ℚ → ℚ → Except FunctionParserError ℚ) (h x_end : ℚ)
    (n : ℤ) : ℕ → ℚ → ℚ → ℚ → Except FunctionParserError (List (ℚ × ℚ × ℚ))
  | 0, _, _, _ => .ok []
  | fuel + 1, curr_x, y_single, y_iter =>
    if curr_x < x_end - eps then
      match heunStep f h n curr_x y_single y_iter with
      | .error e => .error e
      | .ok p =>
        match heunLoop f h x_end n fuel p.1 p.2.1 p.2.2 with
        | .error e => .error e
        | .ok rest => .ok (p :: rest)
    else .ok []

/-- `improved_euler_method` (`numerical_methods.py` lines 55-134):
validate `h`, `x_end` and `corrector_iterations`, seed with
`(x0, y0, y0)`, then run the predictor-corrector loop. -/
def improved_euler_method (f : ℚ → ℚ → Except FunctionParserError ℚ)
    (x0 y0 h x_end : ℚ) (corrector_iterations : ℤ) :
    Except IntegrationExc (List (ℚ × ℚ × ℚ)) :=
  if h ≤ 0 then .error (.invalidParam (.stepNotPositive h))
  else if x_end ≤ x0 then .error (.invalidParam (.endNotGreater x_end x0))
  else if corrector_iterations < 1 then
    .error (.invalidParam (.correctorTooSmall corrector_iterations))
  else
    match heunLoop f h x_end corrector_iterations
        (Nat.ceil ((x_end - x0) / h) + 1) x0 y0 y0 with
    | .error e => .error (.evalError e)
    | .ok pts => .ok ((x0, y0, y0) :: pts)

/-- The result dictionary assembled by `run_simulation`
(`simulation.py` lines 40-47).  The source stores `str(e)` in
`results['error']`; the exception itself is kept here, its rendering
being presentation only. -/
structure SimResults where
  method : String
  euler_points : Option (List (ℚ × ℚ))
  heun_points : Option (List (ℚ × ℚ × ℚ))
  exact_points : Option (List PyFloat)
  exact_func_str : Option String
  error : Option IntegrationExc

/-- Step 1 of `run_simulation` (lines 51-54): dispatch on `method_type`
(`'EULER'` runs `euler_method`, `'HEUN'` runs `improved_euler_method`
with the default `corrector_iterations=1`, anything else runs nothing);
an exception propagates to the enclosing `try`. -/
def integrateStage (method_type : String)
    (func : ℚ → ℚ → Except FunctionParserError ℚ) (x0 y0 h tf : ℚ) :
    Except IntegrationExc (Option (List (ℚ × ℚ)) × Option (List (ℚ × ℚ × ℚ))) :=
  if method_type = "EULER" then
    match euler_method func x0 y0 h tf with
    | .error e => .error e
    | .ok pts => .ok (some pts, none)
  else if method_type = "HEUN" then
    match improved_euler_method func x0 y0 h tf 1 with
    | .error e => .error e
    | .ok pts => .ok (none, some pts)
  else .ok (none, none)

/-- Lines 58-60: `ref_points = euler_points if euler_points else
heun_points` (Python truthiness: `None` and `[]` are both falsy), then
the x-coordinates `p[0]` sampled from it.  An empty result means
`if ref_points:` was false and the exact-solution stage is skipped. -/
def refPointXs (ep : Option (List (ℚ × ℚ)))
    (hp : Option (List (ℚ × ℚ × ℚ))) : List ℚ :=
  match ep with
  | some (p :: l) => (p :: l).map Prod.fst
  | _ =>
    match hp with
    | some pts => pts.map (fun p => p.1)
    | none => []

/-- `run_simulation` (`simulation.py` lines 11-71).  The second component
counts how many times `solve_exact_ode` was invoked during the run.  The
`except Exception` handler makes the source total: every outcome is
returned as a record, never raised; the model is total by construction
and records the caught exception in `error`. -/
def run_simulation (method_type : String)
    (func : ℚ → ℚ → Except FunctionParserError ℚ) (func_str : String)
    (r : SymSolveResult) (x0 y0 h tf : ℚ) : SimResults × ℕ :=
  match integrateStage method_type func x0 y0 h tf with
  | .error e =>
    ({ method := method_type, euler_points := none, heun_points := none,
       exact_points := none, exact_func_str := none, error := some e }, 0)
  | .ok (ep, hp) =>
    match refPointXs ep hp with
    | [] =>
      ({ method := method_type, euler_points := ep, heun_points := hp,
         exact_points := none, exact_func_str := none, error := none }, 0)
    | x :: xs =>
      match solve_exact_ode func_str x0 y0 r with
      | some (real_func, expr_str) =>
        ({ method := method_type, euler_points := ep, heun_points := hp,
           exact_points := some ((x :: xs).map real_func),
           exact_func_str := some expr_str, error := none }, 1)
      | none =>
        ({ method := method_type, euler_points := ep, heun_points := hp,
           exact_points := none, exact_func_str := none, error := none }, 1)

/-- `rel` holds between every adjacent pair of the list (the shape of a
trajectory produced by a step recurrence). -/
def Chained {α : Type} (rel : α → α → Prop) : List α → Prop
  | [] => True
  | [_] => True
  | a :: b :: rest => rel a b ∧ Chained rel (b :: rest)

/-- The evaluator used by the concrete witnesses: f(x, y) = y, which
never fails. -/
def fId : ℚ → ℚ → Except FunctionParserError ℚ := fun _ y => .ok y

/-- A lambdify oracle for the witnesses: every expression evaluates to
the real number 0. -/
def lamZero : SymExpr → ℚ → ℚ → Except PyExc PyVal :=
  fun _ _ _ => .ok (.real 0)

/-- The Euler recurrence linking two consecutive trajectory points:
x advances by `h` and y by `h` times the slope `f` returned at the
previous point. -/
def eulerStepRel (f : ℚ → ℚ → Except FunctionParserError ℚ) (h : ℚ)
    (p q : ℚ × ℚ) : Prop :=
  q.1 = p.1 + h ∧ ∃ v, f p.1 p.2 = .ok v ∧ q.2 = p.2 + h * v

/-- Modelled from the spec (section 4.2): the fixed-point corrector
recurrence the claim describes — y(k) = y_i + (h/2)(k1 + f(x_i + h,
y(k-1))) applied `k` times, with `k1` computed once from `(x_i, y_i)` and
held fixed.  Used to compare the implementation against the spec's
recurrence. -/
def specCorrector (f : ℚ → ℚ → Except FunctionParserError ℚ)
    (h x_i y_i k1 : ℚ) : ℕ → ℚ → Except FunctionParserError ℚ
  | 0, y => .ok y
  | k + 1, y =>
    match f (x_i + h) y with
    | .error e => .error e
    | .ok s => specCorrector f h x_i y_i k1 k (y_i + (h / 2) * (k1 + s))

/-- Modelled from the spec (section 4.2): the fully-iterated corrector
value for one step from `(x_i, y_i)` with corrector-iteration count `n`:
start from the Euler predictor `y_i + h·k1` and apply the corrector
recurrence `n` times (pass 1 yields the first correction, passes 2..n the
refinements), `k1 = f(x_i, y_i)` fixed throughout. -/
def heunIterSpec (f : ℚ → ℚ → Except FunctionParserError ℚ)
    (h : ℚ) (n : ℤ) (x_i y_i : ℚ) : Except FunctionParserError ℚ :=
  match f x_i y_i with
  | .error e => .error e
  | .ok k1 => specCorrector f h x_i y_i k1 n.toNat (y_i + h * k1)

/-- Witness backends for `safe_wrapper`: a real constant, an overflow,
and a complex result. -/
def lamOk5 : ℚ → ℚ → Except PyExc PyVal := fun _ _ => .ok (.real 5)

def lamOverflow : ℚ → ℚ → Except PyExc PyVal :=
  fun _ _ => .error (.overflowError ("math range error"))

def lamComplex : ℚ → ℚ → Except PyExc PyVal := fun _ _ => .ok (.complex 0 1)

/-- Witness closed form: the identity, always real. -/
def lamXReal : ℚ → Except PyExc PyVal := fun x => .ok (.real x)

/-- Claim C1: if the parsed expression tree has a free symbol other than
`x` and `y`, then `parse_function` fails with the unknown-symbol error
naming an offending symbol — whatever the lambdify backend would have
produced — and no evaluator callable is returned. -/
theorem parse_function_unknown_symbol (expr : SymExpr)
    (hs : ∃ s ∈ expr.freeSymbols, s ≠ "x" ∧ s ≠ "y") :
    ∃ s ∈ expr.freeSymbols, s ≠ "x" ∧ s ≠ "y" ∧
      (∀ lambdify, parse_function lambdify expr =
        .error (.unknownSymbol s)) ∧
      (∀ lambdify g, parse_function lambdify expr ≠ .ok g) := by
  obtain ⟨s, hmem, hsx, hsy⟩ := hs
  have hp : (expr.freeSymbols.find? (fun t => !(t == "x" || t == "y"))).isSome := by
    rw [List.find?_isSome]
    exact ⟨s, hmem, by simp [hsx, hsy]⟩
  obtain ⟨t, hfind⟩ := Option.isSome_iff_exists.mp hp
  have htmem : t ∈ expr.freeSymbols := List.mem_of_find?_eq_some hfind
  have htp := List.find?_some hfind
  have htx : t ≠ "x" ∧ t ≠ "y" := by
    constructor <;> intro h <;> subst h <;> simp at htp
  refine ⟨t, htmem, htx.1, htx.2, ?_, ?_⟩
  · intro lambdify
    unfold parse_function
    rw [hfind]
  · intro lambdify g
    unfold parse_function
    rw [hfind]
    exact fun h => Except.noConfusion h

theorem eulerLoop_chain (f : ℚ → ℚ → Except FunctionParserError ℚ)
    (h x_end : ℚ) (fuel : ℕ) :
    ∀ (x y : ℚ) (P : List (ℚ × ℚ)),
      eulerLoop f h x_end fuel x y = .ok P →
      Chained (eulerStepRel f h) ((x, y) :: P) := by
  induction fuel with
  | zero =>
    intro x y P hP
    simp only [eulerLoop] at hP
    cases hP
    trivial
  | succ fuel ih =>
    intro x y P hP
    simp only [eulerLoop] at hP
    by_cases hg : x < x_end - eps
    · rw [if_pos hg] at hP
      cases hf : f x y with
      | error e => rw [hf] at hP; dsimp only at hP; cases hP
      | ok slope =>
        rw [hf] at hP
        dsimp only at hP
        cases hrec : eulerLoop f h x_end fuel (x + h) (y + h * slope) with
        | error e => rw [hrec] at hP; dsimp only at hP; cases hP
        | ok rest =>
          rw [hrec] at hP
          dsimp only at hP
          cases hP
          exact ⟨⟨rfl, slope, hf, rfl⟩, ih _ _ _ hrec⟩
    · rw [if_neg hg] at hP
      cases hP
      trivial

theorem eulerLoop_guard (f : ℚ → ℚ → Except FunctionParserError ℚ)
    (h x_end : ℚ) (fuel : ℕ) :
    ∀ (x y : ℚ) (P : List (ℚ × ℚ)),
      eulerLoop f h x_end fuel x y = .ok P →
      Chained (fun p _ => p.1 < x_end - eps) ((x, y) :: P) := by
  induction fuel with
  | zero =>
    intro x y P hP
    simp only [eulerLoop] at hP
    cases hP
    trivial
  | succ fuel ih =>
    intro x y P hP
    simp only [eulerLoop] at hP
    by_cases hg : x < x_end - eps
    · rw [if_pos hg] at hP
      cases hf : f x y with
      | error e => rw [hf] at hP; dsimp only at hP; cases hP
      | ok slope =>
        rw [hf] at hP
        dsimp only at hP
        cases hrec : eulerLoop f h x_end fuel (x + h) (y + h * slope) with
        | error e => rw [hrec] at hP; dsimp only at hP; cases hP
        | ok rest =>
          rw [hrec] at hP
          dsimp only at hP
          cases hP
          exact ⟨hg, ih _ _ _ hrec⟩
    · rw [if_neg hg] at hP
      cases hP
      trivial

theorem eulerLoop_last (f : ℚ → ℚ → Except FunctionParserError ℚ)
    (h x_end : ℚ) (hh : 0 < h) (fuel : ℕ) :
    ∀ (x y : ℚ) (P : List (ℚ × ℚ)),
      Nat.ceil ((x_end - eps - x) / h) ≤ fuel →
      eulerLoop f h x_end fuel x y = .ok P →
      ∀ p, ((x, y) :: P).getLast? = some p → ¬ p.1 < x_end - eps := by
  have hne : h ≠ 0 := ne_of_gt hh
  induction fuel with
  | zero =>
    intro x y P hfuel hP p hlast
    simp only [eulerLoop] at hP
    cases hP
    simp only [List.getLast?_singleton, Option.some.injEq] at hlast
    have h0 : (x_end - eps - x) / h ≤ 0 := by
      by_contra hpos
      push_neg at hpos
      have := Nat.ceil_pos.mpr hpos
      omega
    have hxe : x_end - eps ≤ x := by
      by_contra hq
      push_neg at hq
      have := div_pos (by linarith : (0:ℚ) < x_end - eps - x) hh
      linarith
    rw [← hlast]
    exact not_lt.mpr hxe
  | succ fuel ih =>
    intro x y P hfuel hP p hlast
    simp only [eulerLoop] at hP
    by_cases hg : x < x_end - eps
    · rw [if_pos hg] at hP
      cases hf : f x y with
      | error e => rw [hf] at hP; dsimp only at hP; cases hP
      | ok slope =>
        rw [hf] at hP
        dsimp only at hP
        cases hrec : eulerLoop f h x_end fuel (x + h) (y + h * slope) with
        | error e => rw [hrec] at hP; dsimp only at hP; cases hP
        | ok rest =>
          rw [hrec] at hP
          dsimp only at hP
          cases hP
          rw [List.getLast?_cons_cons] at hlast
          refine ih (x + h) (y + h * slope) rest ?_ hrec p hlast
          have heq : (x_end - eps - (x + h)) / h = (x_end - eps - x) / h - 1 := by
            field_simp
            ring
          have hle : (x_end - eps - x) / h ≤ (fuel + 1 : ℕ) :=
            le_trans (Nat.le_ceil _) (by exact_mod_cast hfuel)
          rw [heq]
          refine Nat.ceil_le.mpr ?_
          push_cast at hle ⊢
          linarith
    · rw [if_neg hg] at hP
      cases hP
      simp only [List.getLast?_singleton, Option.some.injEq] at hlast
      rw [← hlast]
      exact hg
  -- end

/-- Claim C2: for h > 0 and x_end > x0, a trajectory returned by
`euler_method` starts at the seed `(x0, y0)`, links every adjacent pair
by the Euler recurrence x advancing by h and y by h·f(x_i, y_i), and the
loop repeats exactly while x_i < x_end − 1e-9: every point that has a
successor satisfies the guard, and the last point fails it, so no
spurious extra step is emitted at the boundary. -/
theorem euler_method_trajectory (f : ℚ → ℚ → Except FunctionParserError ℚ)
    (x0 y0 h x_end : ℚ) (L : List (ℚ × ℚ))
    (hh : 0 < h) (hx : x0 < x_end)
    (hL : euler_method f x0 y0 h x_end = .ok L) :
    L.head? = some (x0, y0) ∧
    Chained (eulerStepRel f h) L ∧
    Chained (fun p _ => p.1 < x_end - eps) L ∧
    (∀ p, L.getLast? = some p → ¬ p.1 < x_end - eps) := by
  unfold euler_method at hL
  rw [if_neg (not_le.mpr hh), if_neg (not_le.mpr hx)] at hL
  cases hloop : eulerLoop f h x_end (Nat.ceil ((x_end - x0) / h) + 1) x0 y0 with
  | error e => rw [hloop] at hL; cases hL
  | ok P =>
    rw [hloop] at hL
    cases hL
    refine ⟨rfl, eulerLoop_chain f h x_end _ x0 y0 P hloop,
      eulerLoop_guard f h x_end _ x0 y0 P hloop, ?_⟩
    refine eulerLoop_last f h x_end hh _ x0 y0 P ?_ hloop
    have hmono : (x_end - eps - x0) / h ≤ (x_end - x0) / h := by
      apply div_le_div_of_nonneg_right ?_ hh.le
      have : (0:ℚ) < eps := by norm_num [eps]
      linarith
    calc Nat.ceil ((x_end - eps - x0) / h)
        ≤ Nat.ceil ((x_end - x0) / h) := Nat.ceil_mono hmono
      _ ≤ Nat.ceil ((x_end - x0) / h) + 1 := Nat.le_succ _

/-- Witness for C2: f(x,y) = y, x0 = 0, y0 = 1, h = 1/2, x_end = 1 gives
the trajectory [(0,1), (1/2,3/2), (1,9/4)]. -/
theorem euler_method_trajectory_witness :
    euler_method fId 0 1 (1/2) 1 = .ok [(0, 1), (1/2, 3/2), (1, 9/4)] ∧
    (([(0, 1), (1/2, 3/2), (1, 9/4)] : List (ℚ × ℚ)).head? = some (0, 1) ∧
     Chained (eulerStepRel fId (1/2)) [(0, 1), (1/2, 3/2), (1, 9/4)] ∧
     Chained (fun p _ => p.1 < 1 - eps) [(0, 1), (1/2, 3/2), (1, 9/4)] ∧
     (∀ p, ([(0, 1), (1/2, 3/2), (1, 9/4)] : List (ℚ × ℚ)).getLast? = some p →
       ¬ p.1 < 1 - eps)) := by
  have hrun : euler_method fId 0 1 (1/2) 1 = .ok [(0, 1), (1/2, 3/2), (1, 9/4)] := by
    have hceil : Nat.ceil (((1:ℚ) - 0) / (1/2)) = 2 := by norm_num
    unfold euler_method
    rw [hceil]
    norm_num [eulerLoop, eps, fId]
  exact ⟨hrun, euler_method_trajectory fId 0 1 (1/2) 1 _
    (by norm_num) (by norm_num) hrun⟩

/-- Witness for C1 on the spec's own example `x + z`: the error names
`z`. -/
theorem parse_function_unknown_symbol_witness :
    ∃ s ∈ (SymExpr.add (.var ("x")) (.var ("z"))).freeSymbols,
      s ≠ "x" ∧ s ≠ "y" ∧
      (∀ lambdify, parse_function lambdify (SymExpr.add (.var ("x")) (.var ("z"))) =
        .error (.unknownSymbol s)) ∧
      (∀ lambdify g,
        parse_function lambdify (SymExpr.add (.var ("x")) (.var ("z"))) ≠ .ok g) :=
  parse_function_unknown_symbol (SymExpr.add (.var ("x")) (.var ("z")))
    ⟨"z", by simp [SymExpr.freeSymbols], by decide, by decide⟩

theorem specCorrector_eq_correctorLoop (f : ℚ → ℚ → Except FunctionParserError ℚ)
    (h x_i y_i k1 : ℚ) :
    ∀ (k : ℕ) (y : ℚ),
      specCorrector f h x_i y_i k1 k y = correctorLoop f h (x_i + h) y_i k1 k y := by
  intro k
  induction k with
  | zero => intro y; rfl
  | succ k ih =>
    intro y
    simp only [specCorrector, correctorLoop]
    cases hf : f (x_i + h) y with
    | error e => rfl
    | ok s => exact ih _

theorem heunStep_iterated (f : ℚ → ℚ → Except FunctionParserError ℚ)
    (h : ℚ) (n : ℤ) (hn : 1 ≤ n) (x ys yi a b c : ℚ)
    (hstep : heunStep f h n x ys yi = .ok (a, b, c)) :
    a = x + h ∧ heunIterSpec f h n x yi = .ok c := by
  unfold heunStep at hstep
  cases hf1 : f x ys with
  | error e => rw [hf1] at hstep; dsimp only at hstep; cases hstep
  | ok k1s =>
    rw [hf1] at hstep; dsimp only at hstep
    cases hf2 : f (x + h) (ys + h * k1s) with
    | error e => rw [hf2] at hstep; dsimp only at hstep; cases hstep
    | ok k2s =>
      rw [hf2] at hstep; dsimp only at hstep
      cases hf3 : f x yi with
      | error e => rw [hf3] at hstep; dsimp only at hstep; cases hstep
      | ok k1i =>
        rw [hf3] at hstep; dsimp only at hstep
        cases hf4 : f (x + h) (yi + h * k1i) with
        | error e => rw [hf4] at hstep; dsimp only at hstep; cases hstep
        | ok k2i =>
          rw [hf4] at hstep; dsimp only at hstep
          unfold heunIterSpec
          rw [hf3]
          dsimp only
          by_cases hn1 : 1 < n
          · rw [if_pos hn1] at hstep
            cases hcl : correctorLoop f h (x + h) yi k1i ((n - 1).toNat)
                (yi + (h / 2) * (k1i + k2i)) with
            | error e => rw [hcl] at hstep; dsimp only at hstep; cases hstep
            | ok yit =>
              rw [hcl] at hstep; dsimp only at hstep
              simp only [Except.ok.injEq, Prod.mk.injEq] at hstep
              obtain ⟨ha, hb, hc⟩ := hstep
              refine ⟨ha.symm, ?_⟩
              have hnn : n.toNat = (n - 1).toNat + 1 := by omega
              rw [hnn]
              simp only [specCorrector]
              rw [hf4]
              dsimp only
              rw [specCorrector_eq_correctorLoop, hcl, hc]
          · rw [if_neg hn1] at hstep
            dsimp only at hstep
            simp only [Except.ok.injEq, Prod.mk.injEq] at hstep
            obtain ⟨ha, hb, hc⟩ := hstep
            refine ⟨ha.symm, ?_⟩
            have hnn : n.toNat = 1 := by omega
            rw [hnn]
            simp only [specCorrector]
            rw [hf4]
            dsimp only
            rw [hc]

theorem heunLoop_chain (f : ℚ → ℚ → Except FunctionParserError ℚ)
    (h x_end : ℚ) (n : ℤ) (hn : 1 ≤ n) (fuel : ℕ) :
    ∀ (x ys yi : ℚ) (P : List (ℚ × ℚ × ℚ)),
      heunLoop f h x_end n fuel x ys yi = .ok P →
      Chained (fun p q => q.1 = p.1 + h ∧
        heunIterSpec f h n p.1 p.2.2 = .ok q.2.2) ((x, ys, yi) :: P) := by
  induction fuel with
  | zero =>
    intro x ys yi P hP
    simp only [heunLoop] at hP
    cases hP
    trivial
  | succ fuel ih =>
    intro x ys yi P hP
    simp only [heunLoop] at hP
    by_cases hg : x < x_end - eps
    · rw [if_pos hg] at hP
      cases hs : heunStep f h n x ys yi with
      | error e => rw [hs] at hP; dsimp only at hP; cases hP
      | ok q =>
        rw [hs] at hP; dsimp only at hP
        cases hrec : heunLoop f h x_end n fuel q.1 q.2.1 q.2.2 with
        | error e => rw [hrec] at hP; dsimp only at hP; cases hP
        | ok rest =>
          rw [hrec] at hP; dsimp only at hP
          cases hP
          obtain ⟨a, b, c⟩ := q
          have hi := heunStep_iterated f h n hn x ys yi a b c hs
          exact ⟨⟨hi.1, hi.2⟩, ih _ _ _ _ hrec⟩
    · rw [if_neg hg] at hP
      cases hP
      trivial

/-- Claim C3: with corrector-iteration count n > 1 and valid parameters,
every adjacent pair of the trajectory returned by `improved_euler_method`
has its fully-iterated component produced by the spec's fixed-point
recurrence: x advances by h, and the new iterated value is
`heunIterSpec` — the n-fold corrector iteration from the previous
iterated point, with k1 = f(x_i, y_i) computed once and held fixed. -/
theorem improved_euler_iterated_spec (f : ℚ → ℚ → Except FunctionParserError ℚ)
    (x0 y0 h x_end : ℚ) (n : ℤ) (L : List (ℚ × ℚ × ℚ))
    (hn : 1 < n) (hh : 0 < h) (hx : x0 < x_end)
    (hL : improved_euler_method f x0 y0 h x_end n = .ok L) :
    L.head? = some (x0, y0, y0) ∧
    Chained (fun p q => q.1 = p.1 + h ∧
      heunIterSpec f h n p.1 p.2.2 = .ok q.2.2) L := by
  unfold improved_euler_method at hL
  rw [if_neg (not_le.mpr hh), if_neg (not_le.mpr hx),
    if_neg (not_lt.mpr (by omega : (1:ℤ) ≤ n))] at hL
  cases hloop : heunLoop f h x_end n (Nat.ceil ((x_end - x0) / h) + 1) x0 y0 y0 with
  | error e => rw [hloop] at hL; dsimp only at hL; cases hL
  | ok P =>
    rw [hloop] at hL; dsimp only at hL
    cases hL
    exact ⟨rfl, heunLoop_chain f h x_end n (by omega) _ x0 y0 y0 P hloop⟩

/-- Witness for C3: f(x,y) = y, x0 = 0, y0 = 1, h = 1/2, x_end = 1, two
corrector iterations. -/
theorem improved_euler_iterated_spec_witness :
    improved_euler_method fId 0 1 (1/2) 1 2 =
      .ok [(0, 1, 1), (1/2, 13/8, 53/32), (1, 169/64, 2809/1024)] ∧
    (([(0, 1, 1), (1/2, 13/8, 53/32), (1, 169/64, 2809/1024)] :
        List (ℚ × ℚ × ℚ)).head? = some (0, 1, 1) ∧
     Chained (fun p q => q.1 = p.1 + 1/2 ∧
        heunIterSpec fId (1/2) 2 p.1 p.2.2 = .ok q.2.2)
       [(0, 1, 1), (1/2, 13/8, 53/32), (1, 169/64, 2809/1024)]) := by
  have hrun : improved_euler_method fId 0 1 (1/2) 1 2 =
      .ok [(0, 1, 1), (1/2, 13/8, 53/32), (1, 169/64, 2809/1024)] := by
    have hceil : Nat.ceil (((1:ℚ) - 0) / (1/2)) = 2 := by norm_num
    unfold improved_euler_method
    rw [hceil]
    norm_num [heunLoop, heunStep, correctorLoop, eps, fId]
  exact ⟨hrun, improved_euler_iterated_spec fId 0 1 (1/2) 1 2 _
    (by norm_num) (by norm_num) (by norm_num) hrun⟩

theorem heunStep_single_eq (f : ℚ → ℚ → Except FunctionParserError ℚ)
    (h : ℚ) (x y a b c : ℚ)
    (hstep : heunStep f h 1 x y y = .ok (a, b, c)) : b = c := by
  unfold heunStep at hstep
  cases hf1 : f x y with
  | error e => rw [hf1] at hstep; dsimp only at hstep; cases hstep
  | ok k1 =>
    rw [hf1] at hstep; dsimp only at hstep
    cases hf2 : f (x + h) (y + h * k1) with
    | error e => rw [hf2] at hstep; dsimp only at hstep; cases hstep
    | ok k2 =>
      rw [hf2] at hstep; dsimp only at hstep
      rw [if_neg (by omega : ¬ (1:ℤ) < 1)] at hstep
      dsimp only at hstep
      simp only [Except.ok.injEq, Prod.mk.injEq] at hstep
      obtain ⟨ha, hb, hc⟩ := hstep
      rw [← hb, ← hc]

theorem heunLoop_single (f : ℚ → ℚ → Except FunctionParserError ℚ)
    (h x_end : ℚ) (fuel : ℕ) :
    ∀ (x y : ℚ) (P : List (ℚ × ℚ × ℚ)),
      heunLoop f h x_end 1 fuel x y y = .ok P →
      ∀ p ∈ (x, y, y) :: P, p.2.1 = p.2.2 := by
  induction fuel with
  | zero =>
    intro x y P hP
    simp only [heunLoop] at hP
    cases hP
    intro p hp
    rw [List.mem_singleton] at hp
    rw [hp]
  | succ fuel ih =>
    intro x y P hP
    simp only [heunLoop] at hP
    by_cases hg : x < x_end - eps
    · rw [if_pos hg] at hP
      cases hs : heunStep f h 1 x y y with
      | error e => rw [hs] at hP; dsimp only at hP; cases hP
      | ok q =>
        rw [hs] at hP; dsimp only at hP
        obtain ⟨a, b, c⟩ := q
        have hbc : b = c := heunStep_single_eq f h x y a b c hs
        subst hbc
        cases hrec : heunLoop f h x_end 1 fuel a b b with
        | error e => rw [hrec] at hP; dsimp only at hP; cases hP
        | ok rest =>
          rw [hrec] at hP; dsimp only at hP
          cases hP
          intro p hp
          rcases List.mem_cons.mp hp with h1 | h2
          · rw [h1]
          · exact ih a b rest hrec p h2
    · rw [if_neg hg] at hP
      cases hP
      intro p hp
      rw [List.mem_singleton] at hp
      rw [hp]

/-- Claim C10: with the default corrector-iteration count 1 and valid
parameters, every trajectory tuple returned by `improved_euler_method`
has its single-correction and fully-iterated components equal. -/
theorem improved_euler_single_iter_agree (f : ℚ → ℚ → Except FunctionParserError ℚ)
    (x0 y0 h x_end : ℚ) (L : List (ℚ × ℚ × ℚ))
    (hh : 0 < h) (hx : x0 < x_end)
    (hL : improved_euler_method f x0 y0 h x_end 1 = .ok L) :
    ∀ p ∈ L, p.2.1 = p.2.2 := by
  unfold improved_euler_method at hL
  rw [if_neg (not_le.mpr hh), if_neg (not_le.mpr hx),
    if_neg (by omega : ¬ (1:ℤ) < 1)] at hL
  cases hloop : heunLoop f h x_end 1 (Nat.ceil ((x_end - x0) / h) + 1) x0 y0 y0 with
  | error e => rw [hloop] at hL; dsimp only at hL; cases hL
  | ok P =>
    rw [hloop] at hL; dsimp only at hL
    cases hL
    exact heunLoop_single f h x_end _ x0 y0 P hloop

/-- Witness for C10: the same run as the C3 witness but with one
corrector iteration; both tracks coincide at every point. -/
theorem improved_euler_single_iter_agree_witness :
    improved_euler_method fId 0 1 (1/2) 1 1 =
      .ok [(0, 1, 1), (1/2, 13/8, 13/8), (1, 169/64, 169/64)] ∧
    (∀ p ∈ ([(0, 1, 1), (1/2, 13/8, 13/8), (1, 169/64, 169/64)] :
        List (ℚ × ℚ × ℚ)), p.2.1 = p.2.2) := by
  have hrun : improved_euler_method fId 0 1 (1/2) 1 1 =
      .ok [(0, 1, 1), (1/2, 13/8, 13/8), (1, 169/64, 169/64)] := by
    have hceil : Nat.ceil (((1:ℚ) - 0) / (1/2)) = 2 := by norm_num
    unfold improved_euler_method
    rw [hceil]
    norm_num [heunLoop, heunStep, correctorLoop, eps, fId]
  exact ⟨hrun, improved_euler_single_iter_agree fId 0 1 (1/2) 1 _
    (by norm_num) (by norm_num) hrun⟩

/-- Claim C4: whenever h ≤ 0, x_end ≤ x0 or the corrector count is below
1, both integrators fail with the invalid-parameter error naming the
violated constraint (the corrector check belonging to
`improved_euler_method` alone), and they do so before evaluating f: the
outcome is the same for every evaluator. -/
theorem integrators_invalid_params (f g : ℚ → ℚ → Except FunctionParserError ℚ)
    (x0 y0 h x_end : ℚ) (n : ℤ)
    (hc : h ≤ 0 ∨ x_end ≤ x0 ∨ n < 1) :
    improved_euler_method f x0 y0 h x_end n =
      .error (.invalidParam
        (if h ≤ 0 then .stepNotPositive h
         else if x_end ≤ x0 then .endNotGreater x_end x0
         else .correctorTooSmall n)) ∧
    improved_euler_method f x0 y0 h x_end n =
      improved_euler_method g x0 y0 h x_end n ∧
    (h ≤ 0 ∨ x_end ≤ x0 →
      euler_method f x0 y0 h x_end =
        .error (.invalidParam
          (if h ≤ 0 then .stepNotPositive h else .endNotGreater x_end x0)) ∧
      euler_method f x0 y0 h x_end = euler_method g x0 y0 h x_end) := by
  unfold improved_euler_method euler_method
  by_cases h1 : h ≤ 0
  · simp [h1]
  · by_cases h2 : x_end ≤ x0
    · simp [h1, h2]
    · have h3 : n < 1 := by tauto
      simp [h1, h2, h3]

/-- Witness for C4 at h = -1, n = 0: both integrators report the
step-size constraint. -/
theorem integrators_invalid_params_witness :
    improved_euler_method fId 0 1 (-1) 1 0 =
      .error (.invalidParam (.stepNotPositive (-1))) ∧
    euler_method fId 0 1 (-1) 1 =
      .error (.invalidParam (.stepNotPositive (-1))) := by
  have h1 : ((-1:ℚ) ≤ 0) := by norm_num
  have H := integrators_invalid_params fId fId 0 1 (-1) 1 0 (Or.inl h1)
  constructor
  · rw [H.1, if_pos h1]
  · rw [(H.2.2 (Or.inl h1)).1, if_pos h1]

/-- Counterexample to C5 as stated: a compiled evaluator whose backend
overflows (Python `math.exp` raising `OverflowError` lands in the generic
`except Exception` handler) produces an error that does not carry the
offending point (0, 0) — its message interpolates only `str(e)`. -/
theorem safe_wrapper_overflow_no_point :
    safe_wrapper (fun _ _ => .error (.overflowError ("math range error"))) 0 0 =
      .error (.evaluationUnexpected
        ("Error inesperado evaluando funcion: " ++ "math range error")) ∧
    FunctionParserError.carriesPoint
      (.evaluationUnexpected
        ("Error inesperado evaluando funcion: " ++ "math range error")) = none :=
  ⟨rfl, rfl⟩

/-- Claim C5 (amended): evaluation failures never escape as a foreign
exception type and a non-real result is never returned — every failure
is normalized into a `FunctionParserError` — but only the dedicated
division-by-zero and `ValueError` (math-domain) handlers interpolate the
offending point `(vx, vy)`; overflow, non-real results and all other
unexpected failures are normalized with a cause only. -/
theorem safe_wrapper_normalizes (f_lambda : ℚ → ℚ → Except PyExc PyVal)
    (vx vy : ℚ) :
    (∀ v, safe_wrapper f_lambda vx vy = .ok v → f_lambda vx vy = .ok (.real v)) ∧
    (∀ e, (f_lambda vx vy).bind pyFloat = .error e →
      ∃ err, safe_wrapper f_lambda vx vy = .error err ∧
        err.carriesPoint =
          (match e with
           | .zeroDivisionError _ => some (vx, vy)
           | .valueError _ => some (vx, vy)
           | _ => none)) ∧
    (∀ re im, f_lambda vx vy = .ok (.complex re im) →
      ∃ err, safe_wrapper f_lambda vx vy = .error err) := by
  refine ⟨?_, ?_, ?_⟩
  · intro v hv
    unfold safe_wrapper at hv
    cases hb : (f_lambda vx vy).bind pyFloat with
    | error e =>
      rw [hb] at hv
      cases e <;> dsimp only at hv <;> cases hv
    | ok w =>
      rw [hb] at hv
      dsimp only at hv
      cases hv
      cases hf : f_lambda vx vy with
      | error e => rw [hf, Except.bind] at hb; cases hb
      | ok pv =>
        rw [hf, Except.bind] at hb
        cases pv with
        | real q => cases hb; rfl
        | complex re im => cases hb
  · intro e he
    unfold safe_wrapper
    rw [he]
    cases e with
    | zeroDivisionError m => exact ⟨_, rfl, rfl⟩
    | valueError m => exact ⟨_, rfl, rfl⟩
    | overflowError m => exact ⟨_, rfl, rfl⟩
    | typeError m => exact ⟨_, rfl, rfl⟩
    | otherError m => exact ⟨_, rfl, rfl⟩
  · intro re im hf
    unfold safe_wrapper
    rw [hf, Except.bind]
    exact ⟨_, rfl⟩

/-- Witness for the amendment of C5: a succeeding backend passes its real
value through; an overflowing backend is normalized without the point; a
complex result is rejected as an error. -/
theorem safe_wrapper_normalizes_witness :
    lamOk5 0 0 = Except.ok (PyVal.real 5) ∧
    (∃ err, safe_wrapper lamOverflow 0 0 = .error err ∧
      err.carriesPoint = none) ∧
    (∃ err, safe_wrapper lamComplex 0 0 = .error err) := by
  refine ⟨?_, ?_, ?_⟩
  · exact (safe_wrapper_normalizes lamOk5 0 0).1 5 rfl
  · exact (safe_wrapper_normalizes lamOverflow 0 0).2.1
      (.overflowError ("math range error")) rfl
  · exact (safe_wrapper_normalizes lamComplex 0 0).2.2 0 1 rfl

/-- Claim C6: `solve_exact_ode` returns `None` whenever the symbolic
pipeline raises any exception (SymPy signals both computation failures
and the absence of a closed form by raising) or the 3-second timeout
fires; being a total function of its inputs, it never propagates an
exception to its caller. -/
theorem solve_exact_ode_failure_none (s : String) (x0 y0 : ℚ) :
    (∀ e, solve_exact_ode s x0 y0 (.raises e) = none) ∧
    solve_exact_ode s x0 y0 .timesOut = none :=
  ⟨fun _ => rfl, rfl⟩

/-- Claim C9: on success `solve_exact_ode` returns exactly the
`safe_real_y` wrapper around the lambdified closed form, and that
wrapper returns the NaN sentinel — instead of raising — at every point
where evaluation fails or yields a non-real value. -/
theorem solve_exact_safe_real_y_nan (s : String) (x0 y0 : ℚ)
    (lam : ℚ → Except PyExc PyVal) (rhs : String) :
    solve_exact_ode s x0 y0 (.ok lam rhs) = some (safe_real_y lam, rhs) ∧
    (∀ x e, (lam x).bind pyFloat = .error e → safe_real_y lam x = .nan) ∧
    (∀ x re im, lam x = .ok (.complex re im) → safe_real_y lam x = .nan) := by
  refine ⟨rfl, ?_, ?_⟩
  · intro x e he
    unfold safe_real_y
    rw [he]
  · intro x re im hx
    unfold safe_real_y
    rw [hx, Except.bind]
    rfl

/-- Witness for C9: a closed form whose evaluation raises a math-domain
error at 0, and one returning a complex value at 0, both sample to NaN. -/
theorem solve_exact_safe_real_y_nan_witness :
    safe_real_y (fun _ => .error (.valueError ("math domain error"))) 0 =
      PyFloat.nan ∧
    safe_real_y (fun _ => .ok (.complex 0 1)) 0 = PyFloat.nan := by
  constructor
  · exact (solve_exact_safe_real_y_nan ("") 0 0
      (fun _ => .error (.valueError ("math domain error"))) "").2.1 0
      (.valueError ("math domain error")) rfl
  · exact (solve_exact_safe_real_y_nan ("") 0 0
      (fun _ => .ok (.complex 0 1)) "").2.2 0 0 1 rfl

theorem euler_method_ok_shape (f : ℚ → ℚ → Except FunctionParserError ℚ)
    (x0 y0 h x_end : ℚ) (L : List (ℚ × ℚ))
    (hL : euler_method f x0 y0 h x_end = .ok L) :
    ∃ t, L = (x0, y0) :: t := by
  unfold euler_method at hL
  by_cases h1 : h ≤ 0
  · rw [if_pos h1] at hL; cases hL
  · rw [if_neg h1] at hL
    by_cases h2 : x_end ≤ x0
    · rw [if_pos h2] at hL; cases hL
    · rw [if_neg h2] at hL
      cases hloop : eulerLoop f h x_end (Nat.ceil ((x_end - x0) / h) + 1) x0 y0 with
      | error e => rw [hloop] at hL; dsimp only at hL; cases hL
      | ok P =>
        rw [hloop] at hL; dsimp only at hL
        cases hL
        exact ⟨P, rfl⟩

theorem integrateStage_euler_ok (mt : String)
    (func : ℚ → ℚ → Except FunctionParserError ℚ) (x0 y0 h tf : ℚ)
    (L : List (ℚ × ℚ)) (hq : Option (List (ℚ × ℚ × ℚ)))
    (hst : integrateStage mt func x0 y0 h tf = .ok (some L, hq)) :
    euler_method func x0 y0 h tf = .ok L := by
  unfold integrateStage at hst
  by_cases h1 : mt = "EULER"
  · rw [if_pos h1] at hst
    cases he : euler_method func x0 y0 h tf with
    | error e => rw [he] at hst; dsimp only at hst; cases hst
    | ok pts =>
      rw [he] at hst; dsimp only at hst
      simp only [Except.ok.injEq, Prod.mk.injEq, Option.some.injEq] at hst
      obtain ⟨hl, _⟩ := hst
      rw [← hl]
  · rw [if_neg h1] at hst
    by_cases h2 : mt = "HEUN"
    · rw [if_pos h2] at hst
      cases hi : improved_euler_method func x0 y0 h tf 1 with
      | error e => rw [hi] at hst; dsimp only at hst; cases hst
      | ok pts =>
        rw [hi] at hst; dsimp only at hst
        simp only [Except.ok.injEq, Prod.mk.injEq] at hst
        cases hst.1
    · rw [if_neg h2] at hst
      simp only [Except.ok.injEq, Prod.mk.injEq] at hst
      cases hst.1

theorem integrateStage_heun_some (mt : String)
    (func : ℚ → ℚ → Except FunctionParserError ℚ) (x0 y0 h tf : ℚ)
    (ep : Option (List (ℚ × ℚ))) (M : List (ℚ × ℚ × ℚ))
    (hst : integrateStage mt func x0 y0 h tf = .ok (ep, some M)) :
    improved_euler_method func x0 y0 h tf 1 = .ok M ∧ ep = none := by
  unfold integrateStage at hst
  by_cases h1 : mt = "EULER"
  · rw [if_pos h1] at hst
    cases he : euler_method func x0 y0 h tf with
    | error e => rw [he] at hst; dsimp only at hst; cases hst
    | ok pts =>
      rw [he] at hst; dsimp only at hst
      simp only [Except.ok.injEq, Prod.mk.injEq] at hst
      cases hst.2
  · rw [if_neg h1] at hst
    by_cases h2 : mt = "HEUN"
    · rw [if_pos h2] at hst
      cases hi : improved_euler_method func x0 y0 h tf 1 with
      | error e => rw [hi] at hst; dsimp only at hst; cases hst
      | ok pts =>
        rw [hi] at hst; dsimp only at hst
        simp only [Except.ok.injEq, Prod.mk.injEq, Option.some.injEq] at hst
        obtain ⟨hep, hm⟩ := hst
        exact ⟨by rw [← hm], hep.symm⟩
    · rw [if_neg h2] at hst
      simp only [Except.ok.injEq, Prod.mk.injEq] at hst
      cases hst.2

/-- Claim C7: whenever a run produced an exact-sample array, the
exact-solution search had succeeded (the oracle returned a closed form),
the search was invoked exactly once during the run, and the array is the
exact evaluator mapped over the x-coordinates of the numeric trajectory,
one entry per trajectory point, whichever integrator produced it. -/
theorem run_simulation_exact_alignment (mt : String)
    (func : ℚ → ℚ → Except FunctionParserError ℚ) (fs : String)
    (r : SymSolveResult) (x0 y0 h tf : ℚ) (pts : List PyFloat)
    (hp : (run_simulation mt func fs r x0 y0 h tf).1.exact_points = some pts) :
    (run_simulation mt func fs r x0 y0 h tf).2 = 1 ∧
    ∃ lam rhs, r = SymSolveResult.ok lam rhs ∧
      (∀ L, (run_simulation mt func fs r x0 y0 h tf).1.euler_points = some L →
        pts = L.map (fun p => safe_real_y lam p.1)) ∧
      (∀ M, (run_simulation mt func fs r x0 y0 h tf).1.heun_points = some M →
        pts = M.map (fun p => safe_real_y lam p.1)) := by
  unfold run_simulation at hp ⊢
  cases hstage : integrateStage mt func x0 y0 h tf with
  | error e => rw [hstage] at hp; dsimp only at hp; cases hp
  | ok pr =>
    obtain ⟨ep, hq⟩ := pr
    rw [hstage] at hp
    dsimp only at hp ⊢
    cases href : refPointXs ep hq with
    | nil => rw [href] at hp; dsimp only at hp; cases hp
    | cons x xs =>
      rw [href] at hp
      dsimp only at hp ⊢
      cases r with
      | raises e => dsimp only [solve_exact_ode] at hp; cases hp
      | timesOut => dsimp only [solve_exact_ode] at hp; cases hp
      | ok lam rhs =>
        dsimp only [solve_exact_ode] at hp ⊢
        injection hp with hp
        refine ⟨rfl, lam, rhs, rfl, ?_, ?_⟩
        · intro L hL
          subst hL
          have hek := integrateStage_euler_ok mt func x0 y0 h tf L hq hstage
          obtain ⟨t, hsh⟩ := euler_method_ok_shape func x0 y0 h tf L hek
          subst hsh
          dsimp only [refPointXs] at href
          rw [← hp, ← href, List.map_map]
          rfl
        · intro M hM
          subst hM
          obtain ⟨himp, hepn⟩ :=
            integrateStage_heun_some mt func x0 y0 h tf ep M hstage
          subst hepn
          dsimp only [refPointXs] at href
          rw [← hp, ← href, List.map_map]
          rfl

/-- Witness for C7: an Euler run over [0, 1] with a closed form sampling
to the trajectory x-grid [0, 1/2, 1]. -/
theorem run_simulation_exact_alignment_witness :
    (run_simulation ("EULER") fId ("y") (SymSolveResult.ok lamXReal ("exp(x)"))
      0 1 (1/2) 1).1.exact_points =
      some [PyFloat.val 0, PyFloat.val (1/2), PyFloat.val 1] ∧
    ((run_simulation ("EULER") fId ("y") (SymSolveResult.ok lamXReal ("exp(x)"))
      0 1 (1/2) 1).2 = 1 ∧
     ∃ lam rhs, SymSolveResult.ok lamXReal ("exp(x)") = SymSolveResult.ok lam rhs ∧
      (∀ L, (run_simulation ("EULER") fId ("y")
          (SymSolveResult.ok lamXReal ("exp(x)")) 0 1 (1/2) 1).1.euler_points =
          some L →
        [PyFloat.val 0, PyFloat.val (1/2), PyFloat.val 1] =
          L.map (fun p => safe_real_y lam p.1)) ∧
      (∀ M, (run_simulation ("EULER") fId ("y")
          (SymSolveResult.ok lamXReal ("exp(x)")) 0 1 (1/2) 1).1.heun_points =
          some M →
        [PyFloat.val 0, PyFloat.val (1/2), PyFloat.val 1] =
          M.map (fun p => safe_real_y lam p.1))) := by
  have hrun : euler_method fId 0 1 (1/2) 1 = .ok [(0, 1), (1/2, 3/2), (1, 9/4)] := by
    have hceil : Nat.ceil (((1:ℚ) - 0) / (1/2)) = 2 := by norm_num
    unfold euler_method
    rw [hceil]
    norm_num [eulerLoop, eps, fId]
  have hstage : integrateStage ("EULER") fId 0 1 (1/2) 1 =
      .ok (some [(0, 1), (1/2, 3/2), (1, 9/4)], none) := by
    unfold integrateStage
    rw [if_pos rfl, hrun]
  have hp : (run_simulation ("EULER") fId ("y")
      (SymSolveResult.ok lamXReal ("exp(x)")) 0 1 (1/2) 1).1.exact_points =
      some [PyFloat.val 0, PyFloat.val (1/2), PyFloat.val 1] := by
    unfold run_simulation
    rw [hstage]
    dsimp only [refPointXs, List.map, solve_exact_ode]
    dsimp only [safe_real_y, lamXReal, Except.bind, pyFloat]
  exact ⟨hp, run_simulation_exact_alignment ("EULER") fId ("y")
    (SymSolveResult.ok lamXReal ("exp(x)")) 0 1 (1/2) 1
    [PyFloat.val 0, PyFloat.val (1/2), PyFloat.val 1] hp⟩

/-- Claim C8: `run_simulation` always returns a result record (it is a
total function).  An integration failure aborts the run with the caught
exception recorded in the `error` field and no exact comparison
attempted; when integration succeeds, failure or absence of the
exact-solution stage never aborts the run — `error` stays empty, the
trajectory is recorded, and a failed search merely leaves the result
without an exact comparison. -/
theorem run_simulation_error_isolation (mt : String)
    (func : ℚ → ℚ → Except FunctionParserError ℚ) (fs : String)
    (r : SymSolveResult) (x0 y0 h tf : ℚ) :
    (∀ e, mt = "EULER" → euler_method func x0 y0 h tf = .error e →
      run_simulation mt func fs r x0 y0 h tf =
        ({ method := mt, euler_points := none, heun_points := none,
           exact_points := none, exact_func_str := none, error := some e }, 0)) ∧
    (∀ e, mt = "HEUN" → improved_euler_method func x0 y0 h tf 1 = .error e →
      run_simulation mt func fs r x0 y0 h tf =
        ({ method := mt, euler_points := none, heun_points := none,
           exact_points := none, exact_func_str := none, error := some e }, 0)) ∧
    (∀ L, mt = "EULER" → euler_method func x0 y0 h tf = .ok L →
      (run_simulation mt func fs r x0 y0 h tf).1.error = none ∧
      (run_simulation mt func fs r x0 y0 h tf).1.euler_points = some L ∧
      (solve_exact_ode fs x0 y0 r = none →
        (run_simulation mt func fs r x0 y0 h tf).1.exact_points = none)) ∧
    (∀ M, mt = "HEUN" → improved_euler_method func x0 y0 h tf 1 = .ok M →
      (run_simulation mt func fs r x0 y0 h tf).1.error = none ∧
      (run_simulation mt func fs r x0 y0 h tf).1.heun_points = some M ∧
      (solve_exact_ode fs x0 y0 r = none →
        (run_simulation mt func fs r x0 y0 h tf).1.exact_points = none)) := by
  refine ⟨?_, ?_, ?_, ?_⟩
  · intro e hmt he
    subst hmt
    have hstage : integrateStage ("EULER") func x0 y0 h tf = .error e := by
      unfold integrateStage
      rw [if_pos rfl, he]
    unfold run_simulation
    rw [hstage]
  · intro e hmt he
    subst hmt
    have hstage : integrateStage ("HEUN") func x0 y0 h tf = .error e := by
      unfold integrateStage
      rw [if_neg (by decide), if_pos rfl, he]
    unfold run_simulation
    rw [hstage]
  · intro L hmt hok
    subst hmt
    obtain ⟨t, hsh⟩ := euler_method_ok_shape func x0 y0 h tf L hok
    have hstage : integrateStage ("EULER") func x0 y0 h tf = .ok (some L, none) := by
      unfold integrateStage
      rw [if_pos rfl, hok]
    unfold run_simulation
    rw [hstage]
    subst hsh
    dsimp only [refPointXs, List.map]
    cases hs : solve_exact_ode fs x0 y0 r with
    | some pr =>
      obtain ⟨rf, es⟩ := pr
      dsimp only
      refine ⟨rfl, rfl, ?_⟩
      intro hnone
      cases hnone
    | none =>
      dsimp only
      exact ⟨rfl, rfl, fun _ => rfl⟩
  · intro M hmt hok
    subst hmt
    have hstage : integrateStage ("HEUN") func x0 y0 h tf = .ok (none, some M) := by
      unfold integrateStage
      rw [if_neg (by decide), if_pos rfl, hok]
    unfold run_simulation
    rw [hstage]
    dsimp only [refPointXs]
    cases hM : M.map (fun p => p.1) with
    | nil => exact ⟨rfl, rfl, fun _ => rfl⟩
    | cons x xs =>
      dsimp only
      cases hs : solve_exact_ode fs x0 y0 r with
      | some pr =>
        obtain ⟨rf, es⟩ := pr
        dsimp only
        refine ⟨rfl, rfl, ?_⟩
        intro hnone
        cases hnone
      | none =>
        dsimp only
        exact ⟨rfl, rfl, fun _ => rfl⟩

/-- Witness for C8: an invalid-step Euler run records the error and
skips the exact stage; a valid Euler run with a timed-out search keeps
an empty error and no exact comparison. -/
theorem run_simulation_error_isolation_witness :
    run_simulation ("EULER") fId ("y") SymSolveResult.timesOut 0 1 (-1) 1 =
      ({ method := ("EULER"), euler_points := none, heun_points := none,
         exact_points := none, exact_func_str := none,
         error := some (.invalidParam (.stepNotPositive (-1))) }, 0) ∧
    ((run_simulation ("EULER") fId ("y") SymSolveResult.timesOut
        0 1 (1/2) 1).1.error = none ∧
     (run_simulation ("EULER") fId ("y") SymSolveResult.timesOut
        0 1 (1/2) 1).1.euler_points = some [(0, 1), (1/2, 3/2), (1, 9/4)] ∧
     (run_simulation ("EULER") fId ("y") SymSolveResult.timesOut
        0 1 (1/2) 1).1.exact_points = none) := by
  have herr : euler_method fId 0 1 (-1) 1 =
      .error (.invalidParam (.stepNotPositive (-1))) := by
    have h1 : ((-1:ℚ) ≤ 0) := by norm_num
    have H := integrators_invalid_params fId fId 0 1 (-1) 1 0 (Or.inl h1)
    rw [(H.2.2 (Or.inl h1)).1, if_pos h1]
  have hok : euler_method fId 0 1 (1/2) 1 = .ok [(0, 1), (1/2, 3/2), (1, 9/4)] := by
    have hceil : Nat.ceil (((1:ℚ) - 0) / (1/2)) = 2 := by norm_num
    unfold euler_method
    rw [hceil]
    norm_num [eulerLoop, eps, fId]
  constructor
  · exact (run_simulation_error_isolation ("EULER") fId ("y")
      SymSolveResult.timesOut 0 1 (-1) 1).1
      (.invalidParam (.stepNotPositive (-1))) rfl herr
  · have H3 := (run_simulation_error_isolation ("EULER") fId ("y")
      SymSolveResult.timesOut 0 1 (1/2) 1).2.2.1
      [(0, 1), (1/2, 3/2), (1, 9/4)] rfl hok
    exact ⟨H3.1, H3.2.1, H3.2.2 rfl⟩
